import Mathlib

/-!
Verification of the z80pack audio subsystems against their specification.

Shallow embedding of the two audio device emulations of the repository:

* `iodevices/cromemco-d+7a.c` - the real-time clock bridge that converts
  port writes timestamped in CPU virtual time into a sample stream held in
  per-channel ring buffers (namespace `D7A`);
* `iodevices/ads-noisemaker.c` - the AY-3-8910 programmable sound generator
  model (namespace `PSG`, structure `Ayumi`).

C `double` values are modelled as exact rationals, C integer casts as
explicit truncation, and the mutable global state of each device as an
explicit state structure threaded through the operations.  The recording
sink (`wave_buffer` debug log) and the platform audio glue are outside the
modelled state: they never feed back into the ring buffers, counters or
generator state that the theorems below are about.
-/

namespace Z80Audio

/-- Truncation of a rational toward zero: the effect of a C cast from
`double` to an integer type when the value is representable. -/
def qtrunc (q : ℚ) : ℤ := if 0 ≤ q then ⌊q⌋ else ⌈q⌉

namespace D7A

/-- Constant `RING_BUFFER_SIZE` from cromemco-d+7a.c (ring buffer size per
channel, in samples). -/
def RING_BUFFER_SIZE : Nat := 4048

/-- Structure `SampleBuffer` of cromemco-d+7a.c.  The C field `end` is a
reserved word in Lean and is rendered as `endi`. -/
structure SampleBuffer where
  /-- actual ring buffer for samples (`sample[RING_BUFFER_SIZE]`) -/
  sample : Nat → ℤ
  /-- index to first entry in ring buffer (`start`) -/
  start : Nat
  /-- index to next free buffer entry (`end`) -/
  endi : Nat
  /-- number of samples in buffer (`count`) -/
  count : Nat

/-- One append of the producer:
`sample[end++] = v; if (end >= RING_BUFFER_SIZE) end = 0;`.
The occupation counter is not touched here; the C code adds the whole
group size to `count` once, after the append loop. -/
def pushSample (b : SampleBuffer) (v : ℤ) : SampleBuffer :=
  { b with
    sample := Function.update b.sample b.endi v
    endi := if RING_BUFFER_SIZE ≤ b.endi + 1 then 0 else b.endi + 1 }

/-- Iterated `pushSample`, the append loops of `cromemco_d7a_record`. -/
def pushList (b : SampleBuffer) (vs : List ℤ) : SampleBuffer :=
  vs.foldl pushSample b

/-- Value appended by iteration `i` of the interpolation loop of
`cromemco_d7a_record`: `current_level` starts at the remembered sample
`last`, is appended with a C `(char)` truncation, and is then advanced by
`slope = ((double)data - (double)last) / (double)count`.  Rational
arithmetic makes the iterated additions exact, so iteration `i` appends
the truncation of `last + i * slope`. -/
def interpValue (last data cnt : ℤ) (i : Nat) : ℤ :=
  qtrunc ((last : ℚ) + (i : ℚ) * (((data : ℚ) - (last : ℚ)) / (cnt : ℚ)))

/-- All values appended by the interpolation loop, in order. -/
def interpList (last data cnt : ℤ) : List ℤ :=
  (List.range cnt.toNat).map (interpValue last data cnt)

/-- Appending a group of samples as one operation: the samples are pushed
in order and the occupation counter is raised by the group size.  The
append branches of `cromemco_d7a_record` are each equal to this (proved
below). -/
def appendSamples (b : SampleBuffer) (vs : List ℤ) : SampleBuffer :=
  { pushList b vs with count := (pushList b vs).count + vs.length }

/-- Lines 406-416 of cromemco-d+7a.c, the drift-corrected conversion of
elapsed virtual time into a whole sample count:

    if (last_time[c] == 0) last_time[c] = current_time;
    diff = (current_time - last_time[c]) * ratio;
    count = diff;
    timing_error[c] += diff - count;
    if (timing_error[c] >= 1.0) { count++; timing_error[c] -= 1.0; }

Returns the sample count together with the new value of the timing error
accumulator.  The subtraction of the two `Tstates_t` values is taken on
`Nat`; the theorems only concern monotone time stamps, where this agrees
with the unsigned C subtraction. -/
def d7a_timing (r : ℚ) (lastTime : Nat) (err : ℚ) (T : Nat) : ℤ × ℚ :=
  let lt := if lastTime = 0 then T else lastTime
  let diff : ℚ := ((T - lt : Nat) : ℚ) * r
  let cnt : ℤ := qtrunc diff
  let err1 := err + (diff - (cnt : ℚ))
  if 1 ≤ err1 then (cnt + 1, err1 - 1) else (cnt, err1)

/-- The producer spin of cromemco-d+7a.c (non-SDL build):

    timeout = 1000000;
    while (ring_buffer.lock && !timeout) timeout--;

The loop guard demands `timeout == 0`, so with the initial value 1000000
the body never runs; were `timeout` ever zero while locked, the single
decrement would wrap the unsigned counter to `2^64 - 1` and the guard
`!timeout` would fail.  The function returns the final value of
`timeout`. -/
def spinWait (lock : Bool) (timeout : Nat) : Nat :=
  if lock ∧ timeout = 0 then 2 ^ 64 - 1 else timeout

/-- Mutable state of the D+7A audio path: the two-channel ring buffer with
its lock, the per-channel timing state, and the four fault counters. -/
structure D7AState where
  ring : Fin 2 → SampleBuffer
  lock : Bool
  lastData : Fin 2 → ℤ
  lastTime : Fin 2 → Nat
  timingError : Fin 2 → ℚ
  underflows : Nat
  overflows : Nat
  dropouts : Nat
  timeouts : Nat

/-- Channel selection of `cromemco_d7a_record`: port 1 is channel 0 and
port 3 is channel 1, everything else defaults to channel 0. -/
def portChannel (port : Nat) : Fin 2 :=
  if port = 1 then 0 else if port = 3 then 1 else 0

/-- The locked region of `cromemco_d7a_record` (lines 433-496): underflow
accounting, clamping of the sample count to the free space with overflow
accounting, dropout accounting for counts above 5, the three append
branches, and the final bump of the occupation counter.  `cnt1` is the
drift-corrected sample count, `lastD` the remembered previous sample of
the channel. -/
def recordAppend (s : D7AState) (c : Fin 2) (cnt1 : ℤ) (lastD data : ℤ) :
    D7AState :=
  let buf := s.ring c
  let s2 := if buf.count = 0 then { s with underflows := s.underflows + 1 } else s
  let clipped := ((RING_BUFFER_SIZE : ℤ) - (buf.count : ℤ)) < cnt1
  let cnt2 : ℤ := if clipped then (RING_BUFFER_SIZE : ℤ) - (buf.count : ℤ) else cnt1
  let s3 :=
    if clipped then { s2 with overflows := s2.overflows + 1 }
    else if 5 < cnt1 then { s2 with dropouts := s2.dropouts + 1 }
    else s2
  let buf2 :=
    if cnt2 = 1 then pushSample buf data
    else if cnt2 < 5 then pushList buf (interpList lastD data cnt2)
    else pushList buf (List.replicate cnt2.toNat 0)
  let buf3 := { buf2 with count := buf2.count + cnt2.toNat }
  { s3 with ring := Function.update s3.ring c buf3 }

/-- The update of the timing state of the channel (lines 409-416): the
time stamp of the write is remembered and the drift accumulator takes its
new value.  In the C code this happens before the lock is examined, so it
takes effect even on the (dead) timeout path. -/
def timedState (rate fv sync : ℚ) (s : D7AState) (port : Nat) (T : Nat) :
    D7AState :=
  { s with
    lastTime := Function.update s.lastTime (portChannel port) T
    timingError := Function.update s.timingError (portChannel port)
      (d7a_timing (rate / (fv * 1000000) * sync) (s.lastTime (portChannel port))
        (s.timingError (portChannel port)) T).2 }

/-- Function `cromemco_d7a_record(int port, char data)` of
cromemco-d+7a.c, for the non-SDL build (hand-rolled spin lock), with the
`wave_buffer` debug log disabled (`wave_buffer == NULL`).  `rate`, `fv`
and `sync` are the configuration values `d7a_sample_rate`, `f_value` and
`d7a_sync_adjust`; `T` is the CPU state counter at the time of the write.
The lock flag is set and cleared again inside the call, so its net value
is unchanged.  Note that the timing state (`last_time`, `timing_error`)
is updated (`timedState`) before the lock is even examined. -/
def cromemco_d7a_record (rate fv sync : ℚ) (s : D7AState) (port : Nat)
    (data : ℤ) (T : Nat) : D7AState :=
  let c := portChannel port
  let t := d7a_timing (rate / (fv * 1000000) * sync) (s.lastTime c) (s.timingError c) T
  let s1 := timedState rate fv sync s port T
  if spinWait s.lock 1000000 = 0 then
    { s1 with timeouts := s1.timeouts + 1 }
  else
    let s4 := recordAppend s1 c t.1 (s.lastData c) data
    if port = 1 then { s4 with lastData := Function.update s4.lastData 0 data }
    else { s4 with lastData := Function.update s4.lastData 1 data }

/-- One per-channel iteration of the consumer copy loop of the audio
callbacks (`sdl_audio_callback` / `paCallback`): an empty channel yields
silence and leaves the buffer untouched, otherwise the sample at `start`
is taken, `count` is decremented and `start` advances with wrap-around. -/
def consumerPop (b : SampleBuffer) : ℤ × SampleBuffer :=
  if b.count = 0 then (0, b)
  else
    (b.sample b.start,
     { b with
       count := b.count - 1
       start := if RING_BUFFER_SIZE ≤ b.start + 1 then 0 else b.start + 1 })

/-- Ring buffer invariant as maintained by the code: the indices are in
range, the occupation never exceeds the capacity, and the occupation is
congruent to the index distance modulo the capacity. -/
def RBInv (b : SampleBuffer) : Prop :=
  b.start < RING_BUFFER_SIZE ∧ b.endi < RING_BUFFER_SIZE ∧
  b.count ≤ RING_BUFFER_SIZE ∧
  (b.count : ℤ) % (RING_BUFFER_SIZE : ℤ) =
    ((b.endi : ℤ) - (b.start : ℤ)) % (RING_BUFFER_SIZE : ℤ)

/-- Ring buffer invariant in the literal form of the specification:
`count == (end - start) mod capacity` as an equality of values. -/
def RBInvStated (b : SampleBuffer) : Prop :=
  (b.count : ℤ) = ((b.endi : ℤ) - (b.start : ℤ)) % (RING_BUFFER_SIZE : ℤ)

instance (b : SampleBuffer) : Decidable (RBInv b) := by
  unfold RBInv; infer_instance

instance (b : SampleBuffer) : Decidable (RBInvStated b) := by
  unfold RBInvStated; infer_instance

/-- Totals of the drift-corrected sample-count computation over a run of
uniformly spaced writes: starting from a virtual time `t0` with a clean
error accumulator, writes arrive at `t0 + δ`, `t0 + 2δ`, and so on, and
each write runs the timing code of `cromemco_d7a_record`.  The result is
the time stamp and error accumulator after `n` writes together with the
total sample count produced. -/
def timingRun (r : ℚ) (t0 δ : Nat) : Nat → Nat × ℚ × ℤ
  | 0 => (t0, 0, 0)
  | n + 1 =>
    let p := timingRun r t0 δ n
    let w := d7a_timing r p.1 p.2.1 (t0 + (n + 1) * δ)
    (t0 + (n + 1) * δ, w.2, p.2.2 + w.1)

/-- Ring buffer used by the counterexample and witness states: empty. -/
def buf0 : SampleBuffer := { sample := fun _ => 0, start := 0, endi := 0, count := 0 }

/-- Ring buffer one sample short of full, with wrapped write index about
to return to the origin. -/
def bufAlmostFull : SampleBuffer :=
  { sample := fun _ => 0, start := 0, endi := 4047, count := 4047 }

/-- Device state template for concrete evaluations: unlocked, empty
buffers, previous write time stamp 1 on both channels, clean error
accumulators and counters, previous sample value 0. -/
def st0 : D7AState :=
  { ring := fun _ => buf0
    lock := false
    lastData := fun _ => 0
    lastTime := fun _ => 1
    timingError := fun _ => 0
    underflows := 0, overflows := 0, dropouts := 0, timeouts := 0 }

/-- Device state whose channel 0 is one sample short of full. -/
def stAlmostFull : D7AState := { st0 with ring := fun _ => bufAlmostFull }

/-- Locked device state: the consumer callback is inside the critical
section (`ring_buffer.lock == 1`) when the producer writes. -/
def stLocked : D7AState := { st0 with lock := true }

end D7A

namespace PSG

/-- Constant `DC_FILTER_SIZE` from ads-noisemaker.c. -/
def DC_FILTER_SIZE : Nat := 1024

/-- The four envelope step behaviors of ads-noisemaker.c; the C code uses
function pointers `slide_up`, `slide_down`, `hold_top`, `hold_bottom`. -/
inductive EnvBehavior where
  | slideUp
  | slideDown
  | holdTop
  | holdBottom
deriving DecidableEq

/-- The `Envelopes[16][2]` dispatch table of ads-noisemaker.c, keyed by
envelope shape and active segment.  Stored shapes are always masked to 4
bits and segments are always 0 or 1; out-of-range arguments (unreachable
from the modelled operations) fall through to the last row. -/
def envBehavior : Nat → Nat → EnvBehavior
  | 0, 0 => .slideDown
  | 0, _ => .holdBottom
  | 1, 0 => .slideDown
  | 1, _ => .holdBottom
  | 2, 0 => .slideDown
  | 2, _ => .holdBottom
  | 3, 0 => .slideDown
  | 3, _ => .holdBottom
  | 4, 0 => .slideUp
  | 4, _ => .holdBottom
  | 5, 0 => .slideUp
  | 5, _ => .holdBottom
  | 6, 0 => .slideUp
  | 6, _ => .holdBottom
  | 7, 0 => .slideUp
  | 7, _ => .holdBottom
  | 8, 0 => .slideDown
  | 8, _ => .slideDown
  | 9, 0 => .slideDown
  | 9, _ => .holdBottom
  | 10, 0 => .slideDown
  | 10, _ => .slideUp
  | 11, 0 => .slideDown
  | 11, _ => .holdTop
  | 12, 0 => .slideUp
  | 12, _ => .slideUp
  | 13, 0 => .slideUp
  | 13, _ => .holdTop
  | 14, 0 => .slideUp
  | 14, _ => .slideDown
  | _, 0 => .slideUp
  | _, _ => .holdBottom

/-- Structure `tone_channel` of ads-noisemaker.c. -/
structure ToneChannel where
  tone_period : Nat
  tone_counter : Nat
  tone : Nat
  t_off : Nat
  n_off : Nat
  e_on : Nat
  volume : Nat

/-- Structure `dc_filter` of ads-noisemaker.c: running sum plus delay
line of `DC_FILTER_SIZE` samples (indices are used modulo that size). -/
structure DcFilter where
  sum : ℚ
  delay : Nat → ℚ

/-- Structure `ayumi` of ads-noisemaker.c restricted to the fields read
or written by the generator, mixer, register and DC-filter operations
verified below.  The oversampling interpolator and FIR decimator state
(`step`, `x`, `interpolator`, `fir`, `fir_index`) is touched only by
`ayumi_process` and is not part of any claim, so it is omitted. -/
structure Ayumi where
  channels : Fin 3 → ToneChannel
  noise_period : Nat
  noise_counter : Nat
  noise : Nat
  envelope_counter : Nat
  envelope_period : Nat
  envelope_shape : Nat
  envelope_segment : Nat
  envelope : ℤ
  dac_table : ℤ → ℚ
  dc : DcFilter
  dc_index : Nat
  sample : ℚ

/-- Function `update_tone` of ads-noisemaker.c on a single channel:

    ch->tone_counter += 1;
    if (ch->tone_counter >= ch->tone_period) { ch->tone_counter = 0; ch->tone ^= 1; }
    return ch->tone;

The returned value is the `tone` field of the result. -/
def update_tone (ch : ToneChannel) : ToneChannel :=
  let cnt := ch.tone_counter + 1
  if ch.tone_period ≤ cnt then { ch with tone_counter := 0, tone := ch.tone ^^^ 1 }
  else { ch with tone_counter := cnt }

/-- Function `update_noise` of ads-noisemaker.c: the counter runs to
twice the noise period, then the 17-bit LFSR shifts right with feedback
`bit0 XOR bit3` into bit 16.  The returned noise bit is `noise & 1` of
the result. -/
def update_noise (ay : Ayumi) : Ayumi :=
  let cnt := ay.noise_counter + 1
  if ay.noise_period <<< 1 ≤ cnt then
    { ay with
      noise_counter := 0
      noise := (ay.noise >>> 1) ||| (((ay.noise ^^^ (ay.noise >>> 3)) &&& 1) <<< 16) }
  else { ay with noise_counter := cnt }

/-- Function `reset_segment` of ads-noisemaker.c, expressed as the level
it stores: 31 when the step function of the given shape and segment is
`slide_down` or `hold_top`, otherwise 0. -/
def reset_segment (shape seg : Nat) : ℤ :=
  if envBehavior shape seg = .slideDown ∨ envBehavior shape seg = .holdTop then 31
  else 0

/-- Dispatch through the `Envelopes` table: functions `slide_up`,
`slide_down`, `hold_top` and `hold_bottom` of ads-noisemaker.c.  A slide
beyond a bound toggles the active segment and reseeds the level through
`reset_segment`. -/
def env_dispatch (ay : Ayumi) : Ayumi :=
  match envBehavior ay.envelope_shape ay.envelope_segment with
  | .slideUp =>
    let e := ay.envelope + 1
    if 31 < e then
      let seg := ay.envelope_segment ^^^ 1
      { ay with envelope_segment := seg, envelope := reset_segment ay.envelope_shape seg }
    else { ay with envelope := e }
  | .slideDown =>
    let e := ay.envelope - 1
    if e < 0 then
      let seg := ay.envelope_segment ^^^ 1
      { ay with envelope_segment := seg, envelope := reset_segment ay.envelope_shape seg }
    else { ay with envelope := e }
  | .holdTop => ay
  | .holdBottom => ay

/-- Function `update_envelope` of ads-noisemaker.c.  The returned level
is the `envelope` field of the result. -/
def update_envelope (ay : Ayumi) : Ayumi :=
  let cnt := ay.envelope_counter + 1
  if ay.envelope_period ≤ cnt then env_dispatch { ay with envelope_counter := 0 }
  else { ay with envelope_counter := cnt }

/-- One channel of the mixer loop body of `update_mixer`:

    out = (update_tone(ay, i) | ay->channels[i].t_off) & (noise | ay->channels[i].n_off);
    out *= ay->channels[i].e_on ? envelope : ay->channels[i].volume * 2 + 1;
    ay->sample += ay->dac_table[out];

Returns the updated channel together with its contribution to the chip
sample. -/
def mixChannel (dac : ℤ → ℚ) (env : ℤ) (noise : Nat) (ch : ToneChannel) :
    ToneChannel × ℚ :=
  let ch2 := update_tone ch
  let out : ℤ := (((ch2.tone ||| ch.t_off) &&& (noise ||| ch.n_off) : Nat) : ℤ)
  let out := out * (if ch.e_on ≠ 0 then env else (ch.volume : ℤ) * 2 + 1)
  (ch2, dac out)

/-- Function `update_mixer` of ads-noisemaker.c: one noise step, one
envelope step, then the three channels in order, summing the per-channel
DAC outputs into the chip sample. -/
def update_mixer (ay : Ayumi) : Ayumi :=
  let ayn := update_noise ay
  let noise := ayn.noise &&& 1
  let aye := update_envelope ayn
  let env := aye.envelope
  let m0 := mixChannel aye.dac_table env noise (aye.channels 0)
  let m1 := mixChannel aye.dac_table env noise (aye.channels 1)
  let m2 := mixChannel aye.dac_table env noise (aye.channels 2)
  { aye with
    channels := ![m0.1, m1.1, m2.1]
    sample := 0 + m0.2 + m1.2 + m2.2 }

/-- Function `ayumi_set_tone`:
`period &= 0xfff; tone_period = (period == 0) | period;`. -/
def ayumi_set_tone (ay : Ayumi) (i : Fin 3) (period : Nat) : Ayumi :=
  let p := period &&& 0xfff
  { ay with
    channels := Function.update ay.channels i
      { ay.channels i with tone_period := (if p = 0 then 1 else 0) ||| p } }

/-- Function `ayumi_set_noise`:
`period &= 0x1f; noise_period = (period == 0) | period;`. -/
def ayumi_set_noise (ay : Ayumi) (period : Nat) : Ayumi :=
  let p := period &&& 0x1f
  { ay with noise_period := (if p = 0 then 1 else 0) ||| p }

/-- Function `ayumi_set_envelope`:
`period &= 0xffff; envelope_period = (period == 0) | period;`. -/
def ayumi_set_envelope (ay : Ayumi) (period : Nat) : Ayumi :=
  let p := period &&& 0xffff
  { ay with envelope_period := (if p = 0 then 1 else 0) ||| p }

/-- Function `ayumi_set_envelope_shape`: mask the shape to 4 bits, reset
the counter and the active segment, reseed the level. -/
def ayumi_set_envelope_shape (ay : Ayumi) (shape : Nat) : Ayumi :=
  let sh := shape &&& 0xf
  { ay with
    envelope_shape := sh
    envelope_counter := 0
    envelope_segment := 0
    envelope := reset_segment sh 0 }

/-- Function `ayumi_set_mixer`: `t_off` and `n_off` are masked to one
bit, `e_on` is stored unmasked. -/
def ayumi_set_mixer (ay : Ayumi) (i : Fin 3) (toff noff eon : Nat) : Ayumi :=
  { ay with
    channels := Function.update ay.channels i
      { ay.channels i with t_off := toff &&& 1, n_off := noff &&& 1, e_on := eon } }

/-- Function `ayumi_set_volume`: volume masked to 4 bits. -/
def ayumi_set_volume (ay : Ayumi) (i : Fin 3) (volume : Nat) : Ayumi :=
  { ay with
    channels := Function.update ay.channels i
      { ay.channels i with volume := volume &&& 0xf } }

/-- Helper for the register writes that operate on one channel. -/
def updateChannel (ay : Ayumi) (i : Fin 3) (f : ToneChannel → ToneChannel) : Ayumi :=
  { ay with channels := Function.update ay.channels i (f (ay.channels i)) }

/-- Function `psg_out(struct ayumi* ay, int register_select, BYTE data)`
of ads-noisemaker.c: the 16-register control interface.  The C idiom
`x &= ~0xff` (clear the low byte of a nonnegative int) is rendered as
`256 * (x / 256)` and `x &= 0xff` as `x % 256`; `data` is a `BYTE`, so
callers pass values below 256.  Note that the period registers store
into the period fields directly, without the zero-to-one coercion of the
`ayumi_set_tone` / `ayumi_set_noise` / `ayumi_set_envelope` entry
points, which this function never calls. -/
def psg_out (ay : Ayumi) (rsel : Nat) (data : Nat) : Ayumi :=
  match rsel with
  | 0 => updateChannel ay 0 fun ch =>
      { ch with tone_period := 256 * (ch.tone_period / 256) ||| data }
  | 1 => updateChannel ay 0 fun ch =>
      { ch with tone_period := ch.tone_period % 256 ||| ((data &&& 0xf) <<< 8) }
  | 2 => updateChannel ay 1 fun ch =>
      { ch with tone_period := 256 * (ch.tone_period / 256) ||| data }
  | 3 => updateChannel ay 1 fun ch =>
      { ch with tone_period := ch.tone_period % 256 ||| ((data &&& 0xf) <<< 8) }
  | 4 => updateChannel ay 2 fun ch =>
      { ch with tone_period := 256 * (ch.tone_period / 256) ||| data }
  | 5 => updateChannel ay 2 fun ch =>
      { ch with tone_period := ch.tone_period % 256 ||| ((data &&& 0xf) <<< 8) }
  | 6 => { ay with noise_period := data &&& 0x1f }
  | 7 =>
    let ay := updateChannel ay 0 fun ch => { ch with t_off := data &&& 1 }
    let ay := updateChannel ay 1 fun ch => { ch with t_off := (data >>> 1) &&& 1 }
    let ay := updateChannel ay 2 fun ch => { ch with t_off := (data >>> 2) &&& 1 }
    let ay := updateChannel ay 0 fun ch => { ch with n_off := (data >>> 3) &&& 1 }
    let ay := updateChannel ay 1 fun ch => { ch with n_off := (data >>> 4) &&& 1 }
    updateChannel ay 2 fun ch => { ch with n_off := (data >>> 5) &&& 1 }
  | 8 => updateChannel ay 0 fun ch =>
      { ch with e_on := (data >>> 4) &&& 1, volume := data &&& 0xf }
  | 9 => updateChannel ay 1 fun ch =>
      { ch with e_on := (data >>> 4) &&& 1, volume := data &&& 0xf }
  | 10 => updateChannel ay 2 fun ch =>
      { ch with e_on := (data >>> 4) &&& 1, volume := data &&& 0xf }
  | 11 => { ay with envelope_period := 256 * (ay.envelope_period / 256) ||| data }
  | 12 => { ay with envelope_period := ay.envelope_period % 256 ||| (data <<< 8) }
  | 13 =>
    let sh := data &&& 0xf
    { ay with
      envelope_shape := sh
      envelope_counter := 0
      envelope_segment := 0
      envelope := reset_segment sh 0 }
  | _ => ay

/-- Function `dc_filter` of ads-noisemaker.c:

    dc->sum += -dc->delay[index] + x;
    dc->delay[index] = x;
    return x - dc->sum / DC_FILTER_SIZE;

Returns the updated filter state and the filtered output. -/
def dc_filter (dc : DcFilter) (index : Nat) (x : ℚ) : DcFilter × ℚ :=
  let sum := dc.sum + (-(dc.delay index) + x)
  (⟨sum, Function.update dc.delay index x⟩, x - sum / (DC_FILTER_SIZE : ℚ))

/-- Function `ayumi_remove_dc`: runs `dc_filter` at the current delay
index, then advances the index with the mask
`(dc_index + 1) & (DC_FILTER_SIZE - 1)`. -/
def ayumi_remove_dc (ay : Ayumi) : Ayumi :=
  let p := dc_filter ay.dc ay.dc_index ay.sample
  { ay with
    dc := p.1
    sample := p.2
    dc_index := (ay.dc_index + 1) &&& (DC_FILTER_SIZE - 1) }

/-- Feeding the DC filter a constant value `v` for `n` consecutive
samples, with the delay index advancing cyclically from `i0` exactly as
`ayumi_remove_dc` advances `dc_index`.  Returns the filter state after
the feeds together with the output of the last feed (0 for an empty
run). -/
def dcRun (dc : DcFilter) (i0 : Nat) (v : ℚ) : Nat → DcFilter × ℚ
  | 0 => (dc, 0)
  | n + 1 =>
    let p := dcRun dc i0 v n
    dc_filter p.1 ((i0 + n) % DC_FILTER_SIZE) v

/-- Invariant of the DC filter: the running sum is the sum of the delay
line.  It holds for the zero-initialised filter and is preserved by
`dc_filter` (proved below); it is what makes the incremental update an
exact moving average. -/
def dcInv (dc : DcFilter) : Prop :=
  dc.sum = ∑ j ∈ Finset.range DC_FILTER_SIZE, dc.delay j

/-- Iterated `update_tone` on a single channel. -/
def toneIter (ch : ToneChannel) : Nat → ToneChannel
  | 0 => ch
  | n + 1 => update_tone (toneIter ch n)

/-- Table `AY_dac_table` of ads-noisemaker.c (the AY-3-8910 variant,
selected by `ayumi_configure(ay, 0, ...)` in `ads_noisemaker_init`). -/
def AY_dac_table : List ℚ :=
  [0, 0,
   0.00999465934234, 0.00999465934234,
   0.0144502937362, 0.0144502937362,
   0.0210574502174, 0.0210574502174,
   0.0307011520562, 0.0307011520562,
   0.0455481803616, 0.0455481803616,
   0.0644998855573, 0.0644998855573,
   0.107362478065, 0.107362478065,
   0.126588845655, 0.126588845655,
   0.20498970016, 0.20498970016,
   0.292210269322, 0.292210269322,
   0.372838941024, 0.372838941024,
   0.492530708782, 0.492530708782,
   0.635324635691, 0.635324635691,
   0.805584802014, 0.805584802014,
   1, 1]

/-- Array lookup `dac_table[i]` for a table given as a list; all indices
produced by the mixer lie inside the table. -/
def dacOf (tbl : List ℚ) (i : ℤ) : ℚ := tbl.getD i.toNat 0

/-- Base chip state for concrete evaluations: everything zeroed, large
periods so that no generator fires on the next tick, DAC table of the
AY variant. -/
def chBase : ToneChannel :=
  { tone_period := 100, tone_counter := 0, tone := 0, t_off := 0, n_off := 0,
    e_on := 0, volume := 0 }

def ayBase : Ayumi :=
  { channels := fun _ => chBase
    noise_period := 100
    noise_counter := 0
    noise := 1
    envelope_counter := 0
    envelope_period := 100
    envelope_shape := 0
    envelope_segment := 0
    envelope := 0
    dac_table := dacOf AY_dac_table
    dc := ⟨0, fun _ => 0⟩
    dc_index := 0
    sample := 0 }

/-- Chip state for the mixer counterexample: channel 0 has its envelope
flag set with the envelope level at 2, its tone output high and noise
disabled high through the shared noise bit; channels 1 and 2 produce the
zero DAC entry. -/
def ayMix : Ayumi :=
  { ayBase with
    channels := ![{ chBase with tone := 1, tone_counter := 1, e_on := 1 }, chBase, chBase]
    envelope := 2 }

/-- Chip sample predicted by the specification sentence for `ayMix`: the
amplitude index would be `envelope_level * 2 + 1 = 5`. -/
def ayMixSpecSample : ℚ := dacOf AY_dac_table (2 * 2 + 1)

/-- Tone channel with period 3 for the square-wave witness. -/
def chPeriod3 : ToneChannel := { chBase with tone_period := 3 }

/-- Zero-initialised DC filter (the `ayumi` structure is zeroed by
`memset` in `ayumi_configure`). -/
def dcZero : DcFilter := ⟨0, fun _ => 0⟩

/-- Chip state poised to overflow the envelope: shape 14 (slide up then
slide down), level at the top bound, period 1 so the next tick fires. -/
def ayFlip : Ayumi :=
  { ayBase with
    envelope_shape := 14
    envelope := 31
    envelope_period := 1 }

end PSG

/-! ## Theorems -/

theorem qtrunc_of_nonneg {q : ℚ} (h : 0 ≤ q) : qtrunc q = ⌊q⌋ := by
  simp [qtrunc, h]

namespace D7A

theorem spinWait_million (l : Bool) : spinWait l 1000000 = 1000000 := by
  simp [spinWait]

theorem ring_pos : 0 < RING_BUFFER_SIZE := by norm_num [RING_BUFFER_SIZE]

theorem pushSample_eq_pushList (b : SampleBuffer) (v : ℤ) :
    pushSample b v = pushList b [v] := rfl

theorem pushList_start (vs : List ℤ) :
    ∀ b : SampleBuffer, (pushList b vs).start = b.start := by
  induction vs with
  | nil => intro b; rfl
  | cons v vs ih => intro b; exact ih (pushSample b v)

theorem pushList_count (vs : List ℤ) :
    ∀ b : SampleBuffer, (pushList b vs).count = b.count := by
  induction vs with
  | nil => intro b; rfl
  | cons v vs ih => intro b; exact ih (pushSample b v)

theorem pushSample_endi (b : SampleBuffer) (v : ℤ) (h : b.endi < RING_BUFFER_SIZE) :
    (pushSample b v).endi = (b.endi + 1) % RING_BUFFER_SIZE := by
  show (if RING_BUFFER_SIZE ≤ b.endi + 1 then 0 else b.endi + 1) = _
  unfold RING_BUFFER_SIZE at *
  split <;> omega

theorem pushList_endi (vs : List ℤ) :
    ∀ b : SampleBuffer, b.endi < RING_BUFFER_SIZE →
      (pushList b vs).endi = (b.endi + vs.length) % RING_BUFFER_SIZE := by
  induction vs with
  | nil =>
    intro b h
    show b.endi = _
    rw [List.length_nil, Nat.add_zero, Nat.mod_eq_of_lt h]
  | cons v vs ih =>
    intro b h
    have h1 := pushSample_endi b v h
    have h2 : (pushSample b v).endi < RING_BUFFER_SIZE := by
      rw [h1]; exact Nat.mod_lt _ ring_pos
    have h3 := ih (pushSample b v) h2
    show (pushList (pushSample b v) vs).endi = _
    rw [h3, h1, List.length_cons]
    unfold RING_BUFFER_SIZE
    omega

theorem RBInv_pushBump (b : SampleBuffer) (vs : List ℤ) (k : Nat) (h : RBInv b)
    (hlen : vs.length = k) (hk : b.count + k ≤ RING_BUFFER_SIZE) :
    RBInv { pushList b vs with count := (pushList b vs).count + k } := by
  obtain ⟨hs, he, hc, hm⟩ := h
  have h1 := pushList_start vs b
  have h2 := pushList_count vs b
  have h3 := pushList_endi vs b he
  unfold RBInv
  refine ⟨?_, ?_, ?_, ?_⟩
  · show (pushList b vs).start < RING_BUFFER_SIZE
    rw [h1]; exact hs
  · show (pushList b vs).endi < RING_BUFFER_SIZE
    rw [h3]; exact Nat.mod_lt _ ring_pos
  · show (pushList b vs).count + k ≤ RING_BUFFER_SIZE
    rw [h2]; exact hk
  · show (((pushList b vs).count + k : ℕ) : ℤ) % (RING_BUFFER_SIZE : ℤ) =
      (((pushList b vs).endi : ℤ) - ((pushList b vs).start : ℤ)) % (RING_BUFFER_SIZE : ℤ)
    rw [h1, h2, h3, hlen]
    unfold RING_BUFFER_SIZE at hm ⊢
    push_cast at hm ⊢
    omega

theorem interpList_length (last data cnt : ℤ) :
    (interpList last data cnt).length = cnt.toNat := by
  simp [interpList]

theorem recordAppend_RBInv (s : D7AState) (c : Fin 2) (cnt1 lastD data : ℤ)
    (h : RBInv (s.ring c)) :
    RBInv ((recordAppend s c cnt1 lastD data).ring c) := by
  have hc : (s.ring c).count ≤ RING_BUFFER_SIZE := h.2.2.1
  unfold recordAppend
  simp only [Function.update_same]
  set cnt2 :=
    if (RING_BUFFER_SIZE : ℤ) - ((s.ring c).count : ℤ) < cnt1 then
      (RING_BUFFER_SIZE : ℤ) - ((s.ring c).count : ℤ)
    else cnt1 with hcnt2
  have hk : (s.ring c).count + cnt2.toNat ≤ RING_BUFFER_SIZE := by
    rw [hcnt2]
    split
    · omega
    · next hns => omega
  split_ifs with h1 h4
  · rw [pushSample_eq_pushList]
    exact RBInv_pushBump _ [data] cnt2.toNat h (by rw [h1]; rfl) hk
  · exact RBInv_pushBump _ (interpList lastD data cnt2) cnt2.toNat h
      (interpList_length lastD data cnt2) hk
  · exact RBInv_pushBump _ (List.replicate cnt2.toNat 0) cnt2.toNat h
      (List.length_replicate cnt2.toNat 0) hk

theorem consumerPop_RBInv (b : SampleBuffer) (h : RBInv b) : RBInv (consumerPop b).2 := by
  obtain ⟨hs, he, hc, hm⟩ := h
  unfold consumerPop
  split
  · exact ⟨hs, he, hc, hm⟩
  · next hne =>
    refine ⟨?_, he, ?_, ?_⟩
    · show (if RING_BUFFER_SIZE ≤ b.start + 1 then 0 else b.start + 1) < RING_BUFFER_SIZE
      unfold RING_BUFFER_SIZE at *
      split <;> omega
    · show b.count - 1 ≤ RING_BUFFER_SIZE
      omega
    · show ((b.count - 1 : ℕ) : ℤ) % (RING_BUFFER_SIZE : ℤ) =
        ((b.endi : ℤ) -
          ((if RING_BUFFER_SIZE ≤ b.start + 1 then 0 else b.start + 1 : ℕ) : ℤ)) %
          (RING_BUFFER_SIZE : ℤ)
      unfold RING_BUFFER_SIZE at *
      split <;> omega

theorem consumerPop_start_of_empty (b : SampleBuffer) (h : b.count = 0) :
    (consumerPop b).2.start = b.start := by
  unfold consumerPop
  rw [if_pos h]

theorem record_RBInv (rate fv sync : ℚ) (s : D7AState) (port : Nat) (data : ℤ)
    (T : Nat) (h : RBInv (s.ring (portChannel port))) :
    RBInv ((cromemco_d7a_record rate fv sync s port data T).ring (portChannel port)) := by
  simp only [cromemco_d7a_record, spinWait_million]
  rw [if_neg (by omega : ¬(1000000 : ℕ) = 0)]
  split_ifs with hp
  · exact recordAppend_RBInv _ _ _ _ _ h
  · exact recordAppend_RBInv _ _ _ _ _ h

/-- Reduction of `cromemco_d7a_record` to its locked region: the spin
loop of the source never reaches zero (its guard demands a zero budget),
so the call always proceeds past the lock into `recordAppend`, followed
by the update of the remembered sample. -/
theorem record_unfold (rate fv sync : ℚ) (s : D7AState) (port : Nat) (data : ℤ)
    (T : Nat) :
    cromemco_d7a_record rate fv sync s port data T =
      (if port = 1 then
        { recordAppend (timedState rate fv sync s port T) (portChannel port)
            (d7a_timing (rate / (fv * 1000000) * sync) (s.lastTime (portChannel port))
              (s.timingError (portChannel port)) T).1
            (s.lastData (portChannel port)) data with
          lastData := Function.update
            (recordAppend (timedState rate fv sync s port T) (portChannel port)
              (d7a_timing (rate / (fv * 1000000) * sync) (s.lastTime (portChannel port))
                (s.timingError (portChannel port)) T).1
              (s.lastData (portChannel port)) data).lastData 0 data }
      else
        { recordAppend (timedState rate fv sync s port T) (portChannel port)
            (d7a_timing (rate / (fv * 1000000) * sync) (s.lastTime (portChannel port))
              (s.timingError (portChannel port)) T).1
            (s.lastData (portChannel port)) data with
          lastData := Function.update
            (recordAppend (timedState rate fv sync s port T) (portChannel port)
              (d7a_timing (rate / (fv * 1000000) * sync) (s.lastTime (portChannel port))
                (s.timingError (portChannel port)) T).1
              (s.lastData (portChannel port)) data).lastData 1 data }) := by
  simp only [cromemco_d7a_record, spinWait_million]
  rw [if_neg (by omega : ¬(1000000 : ℕ) = 0)]

/-- C5 (amended).  After every producer operation (`cromemco_d7a_record`)
and every consumer operation (audio callback pop), the ring buffer
satisfies: `count` is congruent to `end - start` modulo
`RING_BUFFER_SIZE`, `count` never exceeds `RING_BUFFER_SIZE`, and the
consumer never advances `start` when `count == 0`.  The literal equality
`count == (end - start) mod capacity` of the claim fails exactly when the
buffer is completely full (see the counterexample), where `count` is the
capacity but the index difference is 0 modulo the capacity. -/
theorem claim_C5_ring_buffer_invariant :
    (∀ (rate fv sync : ℚ) (s : D7AState) (port : Nat) (data : ℤ) (T : Nat),
      RBInv (s.ring (portChannel port)) →
      RBInv ((cromemco_d7a_record rate fv sync s port data T).ring (portChannel port))) ∧
    (∀ b : SampleBuffer, RBInv b → RBInv (consumerPop b).2) ∧
    (∀ b : SampleBuffer, b.count = 0 → (consumerPop b).2.start = b.start) :=
  ⟨record_RBInv, consumerPop_RBInv, consumerPop_start_of_empty⟩

/-- Witness for C5: the preserved invariant evaluated on a concrete
producer write into the empty state and a concrete consumer pop. -/
theorem claim_C5_ring_buffer_invariant_witness :
    RBInv ((cromemco_d7a_record 1000000 1 1 st0 1 7 3).ring (portChannel 1)) ∧
    RBInv (consumerPop bufAlmostFull).2 ∧
    (consumerPop buf0).2.start = buf0.start :=
  ⟨claim_C5_ring_buffer_invariant.1 1000000 1 1 st0 1 7 3 (by decide),
   claim_C5_ring_buffer_invariant.2.1 bufAlmostFull (by decide),
   claim_C5_ring_buffer_invariant.2.2 buf0 (by decide)⟩

/-- Evaluation of the configured clock ratio for the concrete scenarios:
sample rate 1000000, CPU frequency parameter 1 (MHz), sync adjustment 1
give one output sample per virtual time unit. -/
theorem ratio_eval : (1000000 : ℚ) / (1 * 1000000) * 1 = 1 := by norm_num

/-- Evaluation of the timing step for the concrete scenarios: five time
units at ratio 1 from a clean error accumulator give five samples and a
clean accumulator. -/
theorem timing_eval_5 : d7a_timing 1 1 0 6 = (5, 0) := by
  unfold d7a_timing qtrunc
  norm_num

/-- Counterexample for C5 as stated.  The state `stAlmostFull` holds
4047 samples in a buffer of capacity 4048 and satisfies the literal
invariant `count == (end - start) mod capacity`.  One producer write at
virtual time 6 (five elapsed sample periods, clamped to the single free
slot) fills the buffer completely: afterwards `count == 4048` while
`(end - start) mod 4048 == 0`, so the literal equality fails after a
producer operation. -/
theorem claim_C5_ring_buffer_invariant_cex :
    RBInvStated bufAlmostFull ∧
    ¬ RBInvStated ((cromemco_d7a_record 1000000 1 1 stAlmostFull 1 7 6).ring 0) := by
  have hrec : ((cromemco_d7a_record 1000000 1 1 stAlmostFull 1 7 6).ring 0).count = 4048 ∧
      ((cromemco_d7a_record 1000000 1 1 stAlmostFull 1 7 6).ring 0).endi = 0 ∧
      ((cromemco_d7a_record 1000000 1 1 stAlmostFull 1 7 6).ring 0).start = 0 := by
    rw [record_unfold, if_pos rfl, ratio_eval]
    have hp : portChannel 1 = (0 : Fin 2) := rfl
    have hlt : stAlmostFull.lastTime 0 = 1 := rfl
    have hte : stAlmostFull.timingError 0 = 0 := rfl
    rw [hp, hlt, hte, timing_eval_5]
    dsimp only
    norm_num [recordAppend, timedState, Function.update_same, stAlmostFull, st0,
      bufAlmostFull, pushSample, RING_BUFFER_SIZE]
  constructor
  · decide
  · intro hst
    rw [RBInvStated] at hst
    rw [hrec.1, hrec.2.1, hrec.2.2] at hst
    norm_num [RING_BUFFER_SIZE] at hst

theorem recordAppend_overflow (s : D7AState) (c : Fin 2) (cnt1 lastD data : ℤ)
    (hclip : (RING_BUFFER_SIZE : ℤ) - ((s.ring c).count : ℤ) < cnt1)
    (hc : (s.ring c).count ≤ RING_BUFFER_SIZE) :
    ((recordAppend s c cnt1 lastD data).ring c).count = RING_BUFFER_SIZE ∧
    (recordAppend s c cnt1 lastD data).overflows = s.overflows + 1 := by
  unfold recordAppend
  simp only [Function.update_same, if_pos hclip]
  constructor
  · show (if _ then _ else _ : SampleBuffer).count + _ = _
    split_ifs with h1 h4
    · rw [pushSample_eq_pushList, pushList_count]; omega
    · rw [pushList_count]; omega
    · rw [pushList_count]; omega
  · split_ifs <;> rfl

theorem recordAppend_classify (s : D7AState) (c : Fin 2) (w lastD data : ℤ)
    (hnoclip : w ≤ (RING_BUFFER_SIZE : ℤ) - ((s.ring c).count : ℤ)) :
    (w = 0 → (recordAppend s c w lastD data).ring c = s.ring c) ∧
    (w = 1 → (recordAppend s c w lastD data).ring c =
      appendSamples (s.ring c) [data]) ∧
    (2 ≤ w → w < 5 → (recordAppend s c w lastD data).ring c =
      appendSamples (s.ring c) (interpList lastD data w)) ∧
    (5 ≤ w → (recordAppend s c w lastD data).ring c =
      appendSamples (s.ring c) (List.replicate w.toNat 0)) ∧
    (recordAppend s c w lastD data).dropouts =
      s.dropouts + (if 5 < w then 1 else 0) := by
  have hnc : ¬(((RING_BUFFER_SIZE : ℤ) - ((s.ring c).count : ℤ)) < w) := not_lt.2 hnoclip
  unfold recordAppend
  simp only [Function.update_same, if_neg hnc]
  refine ⟨?_, ?_, ?_, ?_, ?_⟩
  · intro hw
    subst hw
    norm_num [appendSamples, pushList, interpList]
  · intro hw
    subst hw
    norm_num [appendSamples, pushSample_eq_pushList]
  · intro hw2 hw5
    rw [if_neg (by omega : ¬w = 1), if_pos hw5]
    rw [appendSamples, interpList_length]
  · intro hw5
    rw [if_neg (by omega : ¬w = 1), if_neg (by omega : ¬w < 5)]
    rw [appendSamples, List.length_replicate]
  · split_ifs <;> rfl

theorem recordAppend_count (s : D7AState) (c : Fin 2) (w lastD data : ℤ)
    (hnoclip : w ≤ (RING_BUFFER_SIZE : ℤ) - ((s.ring c).count : ℤ)) :
    ((recordAppend s c w lastD data).ring c).count = (s.ring c).count + w.toNat := by
  unfold recordAppend
  simp only [Function.update_same, if_neg (not_lt.2 hnoclip)]
  split_ifs with h1 h4
  · rw [pushSample_eq_pushList, pushList_count]
  · rw [pushList_count]
  · rw [pushList_count]

theorem recordAppend_timeouts (s : D7AState) (c : Fin 2) (cnt1 lastD data : ℤ) :
    (recordAppend s c cnt1 lastD data).timeouts = s.timeouts := by
  unfold recordAppend
  dsimp only
  split_ifs <;> rfl

/-- The timeout counter of the D+7A never changes: the timeout branch of
`cromemco_d7a_record` is dead code, because the spin loop guard
`ring_buffer.lock && !timeout` is already false at the initial budget of
1000000. -/
theorem record_never_times_out (rate fv sync : ℚ) (s : D7AState) (port : Nat)
    (data : ℤ) (T : Nat) :
    (cromemco_d7a_record rate fv sync s port data T).timeouts = s.timeouts := by
  rw [record_unfold]
  split_ifs <;> (dsimp only; exact recordAppend_timeouts _ _ _ _ _)

theorem record_count_eq (rate fv sync : ℚ) (s : D7AState) (port : Nat)
    (data : ℤ) (T : Nat) (w : ℤ)
    (hw : (d7a_timing (rate / (fv * 1000000) * sync) (s.lastTime (portChannel port))
      (s.timingError (portChannel port)) T).1 = w)
    (hnoclip : w ≤ (RING_BUFFER_SIZE : ℤ) - ((s.ring (portChannel port)).count : ℤ)) :
    ((cromemco_d7a_record rate fv sync s port data T).ring (portChannel port)).count =
      (s.ring (portChannel port)).count + w.toNat := by
  rw [record_unfold, hw]
  split_ifs with hp
  · dsimp only
    exact recordAppend_count (timedState rate fv sync s port T) (portChannel port)
      w (s.lastData (portChannel port)) data hnoclip
  · dsimp only
    exact recordAppend_count (timedState rate fv sync s port T) (portChannel port)
      w (s.lastData (portChannel port)) data hnoclip

theorem d7a_timing_uniform (r : ℚ) (lt δ : Nat) (hlt : 1 ≤ lt) (e : ℚ)
    (hr : 0 ≤ r) (he0 : 0 ≤ e) (he1 : e < 1) :
    (d7a_timing r lt e (lt + δ)).2 =
      e + (δ : ℚ) * r - ((d7a_timing r lt e (lt + δ)).1 : ℚ) ∧
    0 ≤ (d7a_timing r lt e (lt + δ)).2 ∧ (d7a_timing r lt e (lt + δ)).2 < 1 := by
  unfold d7a_timing
  dsimp only
  rw [if_neg (by omega : ¬lt = 0)]
  rw [(by omega : lt + δ - lt = δ)]
  have hd0 : 0 ≤ (δ : ℚ) * r := by positivity
  rw [qtrunc_of_nonneg hd0]
  have h1 : ((⌊(δ : ℚ) * r⌋ : ℤ) : ℚ) ≤ (δ : ℚ) * r := Int.floor_le _
  have h2 : (δ : ℚ) * r < ⌊(δ : ℚ) * r⌋ + 1 := Int.lt_floor_add_one _
  split_ifs with hge
  · refine ⟨?_, ?_, ?_⟩
    · dsimp only
      push_cast
      ring
    · dsimp only
      linarith
    · dsimp only
      linarith
  · refine ⟨?_, ?_, ?_⟩
    · dsimp only
      ring
    · dsimp only
      linarith
    · dsimp only
      linarith

/-- Invariant of the drift accumulator over a uniform run: the time stamp
advances by `δ` per write, the accumulator stays in `[0, 1)`, and the
total sample count is the elapsed expected count minus the accumulator. -/
theorem timingRun_props (r : ℚ) (hr : 0 ≤ r) (t0 δ : Nat) (ht : 1 ≤ t0) :
    ∀ n : Nat,
      (timingRun r t0 δ n).1 = t0 + n * δ ∧
      0 ≤ (timingRun r t0 δ n).2.1 ∧ (timingRun r t0 δ n).2.1 < 1 ∧
      ((timingRun r t0 δ n).2.2 : ℚ) =
        (n : ℚ) * ((δ : ℚ) * r) - (timingRun r t0 δ n).2.1 := by
  intro n
  induction n with
  | zero =>
    refine ⟨by simp [timingRun], by simp [timingRun], by simp [timingRun], ?_⟩
    simp [timingRun]
  | succ n ih =>
    obtain ⟨hto, he0, he1, htot⟩ := ih
    have harg : t0 + (n + 1) * δ = (t0 + n * δ) + δ := by ring
    have hlt1 : 1 ≤ t0 + n * δ := by omega
    have hu := d7a_timing_uniform r (t0 + n * δ) δ hlt1 ((timingRun r t0 δ n).2.1)
      hr he0 he1
    refine ⟨rfl, ?_, ?_, ?_⟩
    · show 0 ≤ (d7a_timing r (timingRun r t0 δ n).1 (timingRun r t0 δ n).2.1
        (t0 + (n + 1) * δ)).2
      rw [hto, harg]
      exact hu.2.1
    · show (d7a_timing r (timingRun r t0 δ n).1 (timingRun r t0 δ n).2.1
        (t0 + (n + 1) * δ)).2 < 1
      rw [hto, harg]
      exact hu.2.2
    · show (((timingRun r t0 δ n).2.2 +
          (d7a_timing r (timingRun r t0 δ n).1 (timingRun r t0 δ n).2.1
            (t0 + (n + 1) * δ)).1 : ℤ) : ℚ) =
        ((n + 1 : ℕ) : ℚ) * ((δ : ℚ) * r) -
          (d7a_timing r (timingRun r t0 δ n).1 (timingRun r t0 δ n).2.1
            (t0 + (n + 1) * δ)).2
      rw [hto, harg, hu.1]
      push_cast
      rw [htot]
      ring

/-- Totals of a uniform run: the sample count after `N` uniformly spaced
writes is exactly the floor of the expected total, hence within one of
its rounding. -/
theorem timingRun_total_floor (r : ℚ) (hr : 0 ≤ r) (t0 δ N : Nat) (ht : 1 ≤ t0) :
    (timingRun r t0 δ N).2.2 = ⌊(N : ℚ) * ((δ : ℚ) * r)⌋ ∧
    |(timingRun r t0 δ N).2.2 - round ((N : ℚ) * ((δ : ℚ) * r))| ≤ 1 := by
  obtain ⟨-, he0, he1, htot⟩ := timingRun_props r hr t0 δ ht N
  set x : ℚ := (N : ℚ) * ((δ : ℚ) * r) with hx
  have h1 : ((timingRun r t0 δ N).2.2 : ℚ) ≤ x := by linarith
  have h2 : x < (timingRun r t0 δ N).2.2 + 1 := by linarith
  have hfl : ⌊x⌋ = (timingRun r t0 δ N).2.2 := by
    rw [Int.floor_eq_iff]
    refine ⟨h1, by linarith⟩
  refine ⟨hfl.symm, ?_⟩
  rw [← hfl, round_eq]
  have ha : ⌊x⌋ ≤ ⌊x + 1 / 2⌋ := Int.floor_le_floor (by linarith)
  have hb : ⌊x + 1 / 2⌋ < ⌊x⌋ + 2 := by
    rw [Int.floor_lt]
    push_cast
    have h3 := Int.lt_floor_add_one x
    linarith
  rw [abs_le]
  constructor <;> omega

/-- Evaluation of the timing step: one time unit at ratio 1. -/
theorem timing_eval_1 : d7a_timing 1 1 0 2 = (1, 0) := by
  unfold d7a_timing qtrunc
  norm_num

/-- Evaluation of the timing step: two time units at ratio 1. -/
theorem timing_eval_2 : d7a_timing 1 1 0 3 = (2, 0) := by
  unfold d7a_timing qtrunc
  norm_num

/-- Evaluation of the timing step: six time units at ratio 1. -/
theorem timing_eval_6 : d7a_timing 1 1 0 7 = (6, 0) := by
  unfold d7a_timing qtrunc
  norm_num

/-- C1 (amended).  For every call to `cromemco_d7a_record` whose
drift-corrected gap size `whole` (here `w`) is not clamped by the
overflow check: `w == 0` appends nothing; `w == 1` appends exactly the
written sample; `2 <= w < 5` appends `w` linearly interpolated samples
between the remembered previous sample and the new one; `w >= 5` appends
`w` zero (silence) samples.  The dropout counter is incremented exactly
when `w > 5` - not in the interpolation range `2 <= w < 5`, and not at
`w == 5` (the code tests `count > 5` for the dropout log, while the
silence branch starts at `count >= 5`). -/
theorem claim_C1_gap_classification (rate fv sync : ℚ) (s : D7AState) (port : Nat)
    (data : ℤ) (T : Nat) (w : ℤ)
    (hw : (d7a_timing (rate / (fv * 1000000) * sync) (s.lastTime (portChannel port))
      (s.timingError (portChannel port)) T).1 = w)
    (hnoclip : w ≤ (RING_BUFFER_SIZE : ℤ) - ((s.ring (portChannel port)).count : ℤ)) :
    (w = 0 → (cromemco_d7a_record rate fv sync s port data T).ring (portChannel port) =
      s.ring (portChannel port)) ∧
    (w = 1 → (cromemco_d7a_record rate fv sync s port data T).ring (portChannel port) =
      appendSamples (s.ring (portChannel port)) [data]) ∧
    (2 ≤ w → w < 5 →
      (cromemco_d7a_record rate fv sync s port data T).ring (portChannel port) =
        appendSamples (s.ring (portChannel port))
          (interpList (s.lastData (portChannel port)) data w)) ∧
    (5 ≤ w → (cromemco_d7a_record rate fv sync s port data T).ring (portChannel port) =
      appendSamples (s.ring (portChannel port)) (List.replicate w.toNat 0)) ∧
    (cromemco_d7a_record rate fv sync s port data T).dropouts =
      s.dropouts + (if 5 < w then 1 else 0) := by
  rw [record_unfold, hw]
  by_cases hp : port = 1
  · rw [if_pos hp]
    dsimp only
    exact recordAppend_classify (timedState rate fv sync s port T) (portChannel port)
      w (s.lastData (portChannel port)) data hnoclip
  · rw [if_neg hp]
    dsimp only
    exact recordAppend_classify (timedState rate fv sync s port T) (portChannel port)
      w (s.lastData (portChannel port)) data hnoclip

/-- Witness for C1: a write six sample periods after the previous one
appends six zero samples and raises the dropout counter by one. -/
theorem claim_C1_gap_classification_witness :
    (cromemco_d7a_record 1000000 1 1 st0 1 7 7).ring (portChannel 1) =
      appendSamples (st0.ring (portChannel 1)) (List.replicate (6 : ℤ).toNat 0) ∧
    (cromemco_d7a_record 1000000 1 1 st0 1 7 7).dropouts =
      st0.dropouts + (if (5 : ℤ) < 6 then 1 else 0) := by
  have hw : (d7a_timing ((1000000 : ℚ) / (1 * 1000000) * 1)
      (st0.lastTime (portChannel 1)) (st0.timingError (portChannel 1)) 7).1 = 6 := by
    rw [ratio_eval]
    exact congrArg Prod.fst timing_eval_6
  exact ⟨(claim_C1_gap_classification 1000000 1 1 st0 1 7 7 6 hw (by decide)).2.2.2.1
      (by decide),
    (claim_C1_gap_classification 1000000 1 1 st0 1 7 7 6 hw (by decide)).2.2.2.2⟩

/-- Counterexample for C1 as stated.  A write two sample periods after
the previous one takes the interpolation branch and appends two samples,
but the dropout counter stays at zero, whereas the claim asserts it is
incremented by one for `2 <= whole < 5`. -/
theorem claim_C1_gap_classification_cex :
    ((cromemco_d7a_record 1000000 1 1 st0 1 7 3).ring 0).count = 2 ∧
    ¬(cromemco_d7a_record 1000000 1 1 st0 1 7 3).dropouts = st0.dropouts + 1 := by
  have h : ((cromemco_d7a_record 1000000 1 1 st0 1 7 3).ring 0).count = 2 ∧
      (cromemco_d7a_record 1000000 1 1 st0 1 7 3).dropouts = 0 := by
    rw [record_unfold, if_pos rfl, ratio_eval]
    have hp : portChannel 1 = (0 : Fin 2) := rfl
    have hlt : st0.lastTime 0 = 1 := rfl
    have hte : st0.timingError 0 = 0 := rfl
    rw [hp, hlt, hte, timing_eval_2]
    dsimp only
    norm_num [recordAppend, timedState, Function.update_same, st0, buf0,
      RING_BUFFER_SIZE, pushList_count, interpList_length]
    decide
  refine ⟨h.1, ?_⟩
  rw [h.2]
  decide

/-- C2.  Drift correction of the clock bridge.  Per write, the produced
sample count is the floor of elapsed virtual time times the rate ratio,
the fractional remainder accumulates in the timing-error carry, and an
accumulated full sample is moved into the count (this is the definition
of `d7a_timing`, translated from the source).  Consequently, over `N`
uniformly spaced writes the total produced count is exactly the floor of
the expected total `N * delta * ratio`, hence within 1 of its rounding,
independent of `N`; and each unclamped write appends exactly its
produced count to the ring buffer. -/
theorem claim_C2_drift_correction :
    (∀ (r : ℚ) (t0 δ N : Nat), 0 ≤ r → 1 ≤ t0 →
      (timingRun r t0 δ N).2.2 = ⌊(N : ℚ) * ((δ : ℚ) * r)⌋ ∧
      |(timingRun r t0 δ N).2.2 - round ((N : ℚ) * ((δ : ℚ) * r))| ≤ 1) ∧
    (∀ (rate fv sync : ℚ) (s : D7AState) (port : Nat) (data : ℤ) (T : Nat) (w : ℤ),
      (d7a_timing (rate / (fv * 1000000) * sync) (s.lastTime (portChannel port))
        (s.timingError (portChannel port)) T).1 = w →
      w ≤ (RING_BUFFER_SIZE : ℤ) - ((s.ring (portChannel port)).count : ℤ) →
      ((cromemco_d7a_record rate fv sync s port data T).ring (portChannel port)).count =
        (s.ring (portChannel port)).count + w.toNat) :=
  ⟨fun r t0 δ N hr ht => timingRun_total_floor r hr t0 δ N ht, record_count_eq⟩

/-- Witness for C2: three writes at half a sample period per write
produce one sample in total (the floor of 1.5, one away from its
rounding 2), and a concrete unclamped write appends exactly its count. -/
theorem claim_C2_drift_correction_witness :
    ((timingRun (1 / 2) 1 1 3).2.2 = ⌊((3 : ℕ) : ℚ) * (((1 : ℕ) : ℚ) * (1 / 2))⌋ ∧
      |(timingRun (1 / 2) 1 1 3).2.2 -
        round (((3 : ℕ) : ℚ) * (((1 : ℕ) : ℚ) * (1 / 2)))| ≤ 1) ∧
    ((cromemco_d7a_record 1000000 1 1 st0 1 7 3).ring (portChannel 1)).count =
      (st0.ring (portChannel 1)).count + (2 : ℤ).toNat := by
  constructor
  · exact claim_C2_drift_correction.1 (1 / 2) 1 1 3 one_half_pos.le le_rfl
  · exact claim_C2_drift_correction.2 1000000 1 1 st0 1 7 3 2
      (by rw [ratio_eval]; exact congrArg Prod.fst timing_eval_2) (by decide)

/-- C3.  When the drift-corrected gap size exceeds the free space of the
channel ring buffer, the count is clamped to the free space, the excess
samples are dropped, the overflow counter is incremented by one, and the
buffer ends up exactly full. -/
theorem claim_C3_overflow_clamp (rate fv sync : ℚ) (s : D7AState) (port : Nat)
    (data : ℤ) (T : Nat) (w : ℤ)
    (hw : (d7a_timing (rate / (fv * 1000000) * sync) (s.lastTime (portChannel port))
      (s.timingError (portChannel port)) T).1 = w)
    (hclip : (RING_BUFFER_SIZE : ℤ) - ((s.ring (portChannel port)).count : ℤ) < w)
    (hc : (s.ring (portChannel port)).count ≤ RING_BUFFER_SIZE) :
    ((cromemco_d7a_record rate fv sync s port data T).ring (portChannel port)).count =
      RING_BUFFER_SIZE ∧
    (cromemco_d7a_record rate fv sync s port data T).overflows = s.overflows + 1 := by
  rw [record_unfold, hw]
  split_ifs with hp
  · dsimp only
    exact recordAppend_overflow (timedState rate fv sync s port T) (portChannel port)
      w (s.lastData (portChannel port)) data hclip hc
  · dsimp only
    exact recordAppend_overflow (timedState rate fv sync s port T) (portChannel port)
      w (s.lastData (portChannel port)) data hclip hc

/-- Witness for C3, the overflow scenario of the claim: a channel holding
4047 of 4048 samples receives a write requesting five samples; exactly
one is appended (the occupation goes from 4047 to the full 4048) and the
overflow counter is incremented by one. -/
theorem claim_C3_overflow_clamp_witness :
    ((cromemco_d7a_record 1000000 1 1 stAlmostFull 1 7 6).ring (portChannel 1)).count =
      RING_BUFFER_SIZE ∧
    (cromemco_d7a_record 1000000 1 1 stAlmostFull 1 7 6).overflows =
      stAlmostFull.overflows + 1 := by
  have hw : (d7a_timing ((1000000 : ℚ) / (1 * 1000000) * 1)
      (stAlmostFull.lastTime (portChannel 1))
      (stAlmostFull.timingError (portChannel 1)) 6).1 = 5 := by
    rw [ratio_eval]
    exact congrArg Prod.fst timing_eval_5
  exact claim_C3_overflow_clamp 1000000 1 1 stAlmostFull 1 7 6 5 hw (by decide) (by decide)

/-- C4 (code bug).  The spin of the producer is dead code: the loop
`while (ring_buffer.lock && !timeout) timeout--` starts with
`timeout == 1000000`, so its guard is false immediately, the producer
never waits and never times out.  First conjunct: the timeout counter is
unchanged by every call, locked or not.  Remaining conjuncts evaluate the
code at the failing input, a write arriving while the callback holds the
lock (`stLocked`): no timeout is recorded, yet the ring buffer is mutated
(one sample appended) and the underflow counter runs - the write is not
aborted and the shared buffer is touched while locked, contradicting both
the claim and the comment `wait for being unlocked` in the source. -/
theorem claim_C4_timeout_is_dead_code :
    (∀ (rate fv sync : ℚ) (s : D7AState) (port : Nat) (data : ℤ) (T : Nat),
      (cromemco_d7a_record rate fv sync s port data T).timeouts = s.timeouts) ∧
    (cromemco_d7a_record 1000000 1 1 stLocked 1 7 2).timeouts = stLocked.timeouts ∧
    ((cromemco_d7a_record 1000000 1 1 stLocked 1 7 2).ring 0).count = 1 ∧
    (cromemco_d7a_record 1000000 1 1 stLocked 1 7 2).underflows =
      stLocked.underflows + 1 := by
  have h : ((cromemco_d7a_record 1000000 1 1 stLocked 1 7 2).ring 0).count = 1 ∧
      (cromemco_d7a_record 1000000 1 1 stLocked 1 7 2).underflows = 1 := by
    rw [record_unfold, if_pos rfl, ratio_eval]
    have hp : portChannel 1 = (0 : Fin 2) := rfl
    have hlt : stLocked.lastTime 0 = 1 := rfl
    have hte : stLocked.timingError 0 = 0 := rfl
    rw [hp, hlt, hte, timing_eval_1]
    dsimp only
    norm_num [recordAppend, timedState, Function.update_same, stLocked, st0, buf0,
      RING_BUFFER_SIZE, pushSample_eq_pushList, pushList_count]
  refine ⟨record_never_times_out,
    record_never_times_out 1000000 1 1 stLocked 1 7 2, h.1, ?_⟩
  rw [h.2]
  rfl

end D7A

namespace PSG

theorem reset_segment_cases (shape seg : Nat) :
    reset_segment shape seg = 0 ∨ reset_segment shape seg = 31 := by
  unfold reset_segment
  split_ifs <;> simp

theorem env_dispatch_bounds (ay : Ayumi) (h0 : 0 ≤ ay.envelope)
    (h31 : ay.envelope ≤ 31) :
    0 ≤ (env_dispatch ay).envelope ∧ (env_dispatch ay).envelope ≤ 31 := by
  unfold env_dispatch
  rcases hbeh : envBehavior ay.envelope_shape ay.envelope_segment with _ | _ | _ | _ <;>
    simp only [hbeh]
  · split_ifs with h
    · rcases reset_segment_cases ay.envelope_shape (ay.envelope_segment ^^^ 1) with hr | hr <;>
        simp only [hr] <;> omega
    · dsimp only
      omega
  · split_ifs with h
    · rcases reset_segment_cases ay.envelope_shape (ay.envelope_segment ^^^ 1) with hr | hr <;>
        simp only [hr] <;> omega
    · dsimp only
      omega
  · exact ⟨h0, h31⟩
  · exact ⟨h0, h31⟩

/-- C6.  The envelope level stays in the range 0..31 after every
`update_envelope` step and after every envelope-shape write; when a
sliding step would exceed a bound (slide up at 31, slide down at 0, with
the period counter firing), the active segment index flips and the level
is reseeded to 31 when the new segment's behavior is slide-down or
hold-top, and to 0 otherwise. -/
theorem claim_C6_envelope_invariant :
    (∀ ay : Ayumi, 0 ≤ ay.envelope → ay.envelope ≤ 31 →
      0 ≤ (update_envelope ay).envelope ∧ (update_envelope ay).envelope ≤ 31) ∧
    (∀ (ay : Ayumi) (shape : Nat),
      0 ≤ (ayumi_set_envelope_shape ay shape).envelope ∧
      (ayumi_set_envelope_shape ay shape).envelope ≤ 31) ∧
    (∀ ay : Ayumi,
      envBehavior ay.envelope_shape ay.envelope_segment = EnvBehavior.slideUp →
      ay.envelope = 31 → ay.envelope_period ≤ ay.envelope_counter + 1 →
      (update_envelope ay).envelope_segment = ay.envelope_segment ^^^ 1 ∧
      (update_envelope ay).envelope =
        (if envBehavior ay.envelope_shape (ay.envelope_segment ^^^ 1) =
              EnvBehavior.slideDown ∨
            envBehavior ay.envelope_shape (ay.envelope_segment ^^^ 1) =
              EnvBehavior.holdTop
          then 31 else 0)) ∧
    (∀ ay : Ayumi,
      envBehavior ay.envelope_shape ay.envelope_segment = EnvBehavior.slideDown →
      ay.envelope = 0 → ay.envelope_period ≤ ay.envelope_counter + 1 →
      (update_envelope ay).envelope_segment = ay.envelope_segment ^^^ 1 ∧
      (update_envelope ay).envelope =
        (if envBehavior ay.envelope_shape (ay.envelope_segment ^^^ 1) =
              EnvBehavior.slideDown ∨
            envBehavior ay.envelope_shape (ay.envelope_segment ^^^ 1) =
              EnvBehavior.holdTop
          then 31 else 0)) := by
  refine ⟨?_, ?_, ?_, ?_⟩
  · intro ay h0 h31
    unfold update_envelope
    dsimp only
    split_ifs with htr
    · exact env_dispatch_bounds { ay with envelope_counter := 0 } h0 h31
    · exact ⟨h0, h31⟩
  · intro ay shape
    unfold ayumi_set_envelope_shape
    dsimp only
    rcases reset_segment_cases (shape &&& 0xf) 0 with hr | hr <;> rw [hr] <;> omega
  · intro ay hbeh h31 htr
    unfold update_envelope
    dsimp only
    rw [if_pos htr]
    unfold env_dispatch
    dsimp only
    simp only [hbeh]
    rw [h31, if_pos (by omega : (31 : ℤ) < 31 + 1)]
    exact ⟨rfl, rfl⟩
  · intro ay hbeh h0 htr
    unfold update_envelope
    dsimp only
    rw [if_pos htr]
    unfold env_dispatch
    dsimp only
    simp only [hbeh]
    rw [h0, if_pos (by omega : (0 : ℤ) - 1 < 0)]
    exact ⟨rfl, rfl⟩

/-- Witness for C6: a shape-8 chip state at level 31 with an up-sliding
segment flips its segment on the firing tick and reseeds to 31 (the new
segment of shape 8 slides down); the bounds hold on the base state. -/
theorem claim_C6_envelope_invariant_witness :
    (0 ≤ (update_envelope ayBase).envelope ∧
      (update_envelope ayBase).envelope ≤ 31) ∧
    (0 ≤ (ayumi_set_envelope_shape ayBase 8).envelope ∧
      (ayumi_set_envelope_shape ayBase 8).envelope ≤ 31) ∧
    ((update_envelope ayFlip).envelope_segment = ayFlip.envelope_segment ^^^ 1 ∧
      (update_envelope ayFlip).envelope =
        (if envBehavior ayFlip.envelope_shape (ayFlip.envelope_segment ^^^ 1) =
              EnvBehavior.slideDown ∨
            envBehavior ayFlip.envelope_shape (ayFlip.envelope_segment ^^^ 1) =
              EnvBehavior.holdTop
          then 31 else 0)) :=
  ⟨claim_C6_envelope_invariant.1 ayBase (by decide) (by decide),
   claim_C6_envelope_invariant.2.1 ayBase 8,
   claim_C6_envelope_invariant.2.2.1 ayFlip (by decide) (by decide) (by decide)⟩

theorem or_le_one {a b : Nat} (ha : a ≤ 1) (hb : b ≤ 1) : a ||| b ≤ 1 := by
  interval_cases a <;> interval_cases b <;> decide

theorem update_tone_tone_le (ch : ToneChannel) (h : ch.tone ≤ 1) :
    (update_tone ch).tone ≤ 1 := by
  unfold update_tone
  dsimp only
  split_ifs
  · dsimp only
    interval_cases h1 : ch.tone <;> decide
  · exact h

theorem update_noise_channels (ay : Ayumi) :
    (update_noise ay).channels = ay.channels := by
  unfold update_noise
  dsimp only
  split <;> rfl

theorem update_noise_dac (ay : Ayumi) :
    (update_noise ay).dac_table = ay.dac_table := by
  unfold update_noise
  dsimp only
  split <;> rfl

theorem env_dispatch_channels (ay : Ayumi) :
    (env_dispatch ay).channels = ay.channels := by
  unfold env_dispatch
  rcases hbeh : envBehavior ay.envelope_shape ay.envelope_segment with _ | _ | _ | _ <;>
    simp only [hbeh] <;> split_ifs <;> rfl

theorem env_dispatch_dac (ay : Ayumi) :
    (env_dispatch ay).dac_table = ay.dac_table := by
  unfold env_dispatch
  rcases hbeh : envBehavior ay.envelope_shape ay.envelope_segment with _ | _ | _ | _ <;>
    simp only [hbeh] <;> split_ifs <;> rfl

theorem update_envelope_channels (ay : Ayumi) :
    (update_envelope ay).channels = ay.channels := by
  unfold update_envelope
  dsimp only
  split_ifs
  · exact env_dispatch_channels _
  · rfl

theorem update_envelope_dac (ay : Ayumi) :
    (update_envelope ay).dac_table = ay.dac_table := by
  unfold update_envelope
  dsimp only
  split_ifs
  · exact env_dispatch_dac _
  · rfl

theorem mixChannel_sample (dac : ℤ → ℚ) (env : ℤ) (noise : Nat) (ch : ToneChannel)
    (htone : ch.tone ≤ 1) (htoff : ch.t_off ≤ 1) (_hn : noise ≤ 1)
    (_hnoff : ch.n_off ≤ 1) :
    (mixChannel dac env noise ch).2 =
      (if ((update_tone ch).tone ||| ch.t_off) &&& (noise ||| ch.n_off) = 1
       then dac (if ch.e_on ≠ 0 then env else (ch.volume : ℤ) * 2 + 1)
       else dac 0) := by
  unfold mixChannel
  dsimp only
  have hb : ((update_tone ch).tone ||| ch.t_off) &&& (noise ||| ch.n_off) ≤ 1 :=
    le_trans Nat.and_le_left (or_le_one (update_tone_tone_le ch htone) htoff)
  rcases Nat.le_one_iff_eq_zero_or_eq_one.1 hb with h | h
  · rw [h, if_neg (by omega : ¬(0 : ℕ) = 1)]
    norm_num
  · rw [h, if_pos rfl]
    norm_num

/-- C7 (amended).  On every chip tick, `update_mixer` computes, per
channel, the output bit `(tone | t_off) & (noise | n_off)` from the
post-tick tone and noise bits; the DAC amplitude index is the envelope
level itself (not `envelope*2+1` as the claim states - see the
counterexample) when the envelope-enable flag is set, else
`volume*2+1`; the channel contribution is `dac_table[index]` when the
output bit is 1 and `dac_table[0]` otherwise, and the chip sample is the
sum of the three channel contributions. -/
theorem claim_C7_mixer_formula (ay : Ayumi)
    (ht : ∀ i : Fin 3, (ay.channels i).tone ≤ 1)
    (htoff : ∀ i : Fin 3, (ay.channels i).t_off ≤ 1)
    (hnoff : ∀ i : Fin 3, (ay.channels i).n_off ≤ 1) :
    (update_mixer ay).sample =
      ∑ i : Fin 3,
        (if ((update_tone (ay.channels i)).tone ||| (ay.channels i).t_off) &&&
            (((update_noise ay).noise &&& 1) ||| (ay.channels i).n_off) = 1
         then ay.dac_table
           (if (ay.channels i).e_on ≠ 0
            then (update_envelope (update_noise ay)).envelope
            else ((ay.channels i).volume : ℤ) * 2 + 1)
         else ay.dac_table 0) := by
  unfold update_mixer
  dsimp only
  rw [Fin.sum_univ_three]
  simp only [update_envelope_channels, update_noise_channels, update_envelope_dac,
    update_noise_dac]
  have hn : (update_noise ay).noise &&& 1 ≤ 1 := Nat.and_le_right
  rw [mixChannel_sample _ _ _ _ (ht 0) (htoff 0) hn (hnoff 0),
    mixChannel_sample _ _ _ _ (ht 1) (htoff 1) hn (hnoff 1),
    mixChannel_sample _ _ _ _ (ht 2) (htoff 2) hn (hnoff 2)]
  ring

/-- Witness for C7: the mixer formula evaluated on the concrete state
`ayMix` (channel 0 tone high with envelope enabled at level 2, channels
1 and 2 silent). -/
theorem claim_C7_mixer_formula_witness :
    (update_mixer ayMix).sample =
      ∑ i : Fin 3,
        (if ((update_tone (ayMix.channels i)).tone ||| (ayMix.channels i).t_off) &&&
            (((update_noise ayMix).noise &&& 1) ||| (ayMix.channels i).n_off) = 1
         then ayMix.dac_table
           (if (ayMix.channels i).e_on ≠ 0
            then (update_envelope (update_noise ayMix)).envelope
            else ((ayMix.channels i).volume : ℤ) * 2 + 1)
         else ayMix.dac_table 0) :=
  claim_C7_mixer_formula ayMix (by decide) (by decide) (by decide)

theorem AY_dac_zero : dacOf AY_dac_table 0 = 0 := rfl

theorem AY_dac_two : dacOf AY_dac_table 2 = 0.00999465934234 := rfl

theorem AY_dac_five : dacOf AY_dac_table (2 * 2 + 1) = 0.0144502937362 := rfl

/-- Counterexample for C7 as stated.  On the state `ayMix` (channel 0:
tone bit 1, envelope enabled, envelope level 2), the code indexes the DAC
table with the envelope level itself, yielding entry 2; the claim's
amplitude index `envelope_level*2+1` would yield entry 5, a different
value of the AY table, so the claimed formula does not match the code. -/
theorem claim_C7_mixer_formula_cex :
    (update_mixer ayMix).sample = dacOf AY_dac_table 2 ∧
    ayMixSpecSample = dacOf AY_dac_table (2 * 2 + 1) ∧
    ¬(update_mixer ayMix).sample = ayMixSpecSample := by
  have hs : (update_mixer ayMix).sample = dacOf AY_dac_table 2 := by
    norm_num [update_mixer, update_noise, update_envelope, update_tone, mixChannel,
      ayMix, ayBase, chBase, Nat.shiftLeft_eq, AY_dac_zero]
  refine ⟨hs, rfl, ?_⟩
  rw [hs]
  intro h
  rw [AY_dac_two, show ayMixSpecSample = dacOf AY_dac_table (2 * 2 + 1) from rfl,
    AY_dac_five] at h
  norm_num at h

theorem mask_fff_of_le {p : Nat} (h : p ≤ 0xfff) : p &&& 0xfff = p := by
  have := Nat.and_pow_two_sub_one_eq_mod p 12
  norm_num at this
  omega

/-- Closed form of the iterated tone generator clock: starting from a
zero counter, after `k` ticks the counter reads `k mod p` and the square
output has flipped `k / p` times. -/
theorem toneIter_formula (p : Nat) (hp : 1 ≤ p) (ch : ToneChannel)
    (hper : ch.tone_period = p) (hcnt : ch.tone_counter = 0) :
    ∀ k : Nat, (toneIter ch k).tone_period = p ∧
      (toneIter ch k).tone_counter = k % p ∧
      (toneIter ch k).tone = ch.tone ^^^ (k / p % 2) := by
  intro k
  induction k with
  | zero =>
    refine ⟨hper, ?_, ?_⟩
    · show ch.tone_counter = 0 % p
      rw [hcnt, Nat.zero_mod]
    · show ch.tone = ch.tone ^^^ (0 / p % 2)
      rw [Nat.zero_div, Nat.zero_mod, Nat.xor_zero]
  | succ k ih =>
    obtain ⟨hp1, hc1, ht1⟩ := ih
    have hmlt : k % p < p := Nat.mod_lt _ (by omega)
    show (update_tone (toneIter ch k)).tone_period = p ∧
      (update_tone (toneIter ch k)).tone_counter = (k + 1) % p ∧
      (update_tone (toneIter ch k)).tone = ch.tone ^^^ ((k + 1) / p % 2)
    unfold update_tone
    dsimp only
    rw [hp1, hc1, ht1]
    by_cases htrig : p ≤ k % p + 1
    · have hmul : p * (k / p + 1) = p * (k / p) + p := by ring
      have hk1 : k + 1 = p * (k / p + 1) := by
        have hdm := Nat.div_add_mod k p
        omega
      have hkm : (k + 1) % p = 0 := by
        rw [hk1]
        exact Nat.mul_mod_right p _
      have hkd : (k + 1) / p = k / p + 1 := by
        rw [hk1]
        exact Nat.mul_div_cancel_left _ (by omega)
      rw [if_pos htrig, hkm, hkd]
      refine ⟨rfl, rfl, ?_⟩
      dsimp only
      rcases Nat.mod_two_eq_zero_or_one (k / p) with h2 | h2
      · rw [h2, (by omega : (k / p + 1) % 2 = 1), Nat.xor_zero]
      · rw [h2, (by omega : (k / p + 1) % 2 = 0), Nat.xor_assoc, Nat.xor_self,
          Nat.xor_zero]
    · have hk1 : k + 1 = p * (k / p) + (k % p + 1) := by
        have hdm := Nat.div_add_mod k p
        omega
      have hkm : (k + 1) % p = k % p + 1 := by
        rw [hk1, Nat.mul_add_mod]
        exact Nat.mod_eq_of_lt (not_le.1 htrig)
      have hkd : (k + 1) / p = k / p := by
        rw [hk1, Nat.mul_add_div (by omega), Nat.div_eq_of_lt (not_le.1 htrig),
          Nat.add_zero]
      rw [if_neg htrig, hkm, hkd]
      exact ⟨rfl, rfl, rfl⟩

/-- C8.  For every valid period `p` (1..0xfff) written through
`ayumi_set_tone`, the stored period is `p`; from a zero counter the tone
output inverts after every `p` ticks and returns to itself after `2p`
ticks, so the square wave has period exactly `2p` with 50% duty; and a
written period of 0 yields exactly the same chip state as a written
period of 1. -/
theorem claim_C8_tone_square_wave (p : Nat) (hp1 : 1 ≤ p) (hp2 : p ≤ 0xfff) :
    (∀ (ay : Ayumi) (i : Fin 3),
      ((ayumi_set_tone ay i p).channels i).tone_period = p) ∧
    (∀ ch : ToneChannel, ch.tone_period = p → ch.tone_counter = 0 →
      ∀ k : Nat,
        (toneIter ch (k + p)).tone = (toneIter ch k).tone ^^^ 1 ∧
        (toneIter ch (k + 2 * p)).tone = (toneIter ch k).tone) ∧
    (∀ (ay : Ayumi) (i : Fin 3), ayumi_set_tone ay i 0 = ayumi_set_tone ay i 1) := by
  refine ⟨?_, ?_, ?_⟩
  · intro ay i
    unfold ayumi_set_tone
    dsimp only
    rw [Function.update_same]
    dsimp only
    rw [mask_fff_of_le hp2, if_neg (by omega : ¬p = 0), Nat.zero_or]
  · intro ch hper hcnt k
    have hf := toneIter_formula p hp1 ch hper hcnt
    obtain ⟨-, -, htk⟩ := hf k
    obtain ⟨-, -, htkp⟩ := hf (k + p)
    obtain ⟨-, -, htk2p⟩ := hf (k + 2 * p)
    have hd1 : (k + p) / p = k / p + 1 := by
      rw [Nat.add_div_right _ (by omega)]
    have hd2 : (k + 2 * p) / p = k / p + 2 := by
      rw [show k + 2 * p = k + p + p by ring, Nat.add_div_right _ (by omega),
        Nat.add_div_right _ (by omega)]
    constructor
    · rw [htkp, htk, hd1]
      rcases Nat.mod_two_eq_zero_or_one (k / p) with h2 | h2
      · rw [h2, (by omega : (k / p + 1) % 2 = 1), Nat.xor_zero]
      · rw [h2, (by omega : (k / p + 1) % 2 = 0),
          Nat.xor_assoc, Nat.xor_self, Nat.xor_zero]
    · rw [htk2p, htk, hd2]
      rcases Nat.mod_two_eq_zero_or_one (k / p) with h2 | h2
      · rw [h2, (by omega : (k / p + 2) % 2 = 0)]
      · rw [h2, (by omega : (k / p + 2) % 2 = 1)]
  · intro ay i
    unfold ayumi_set_tone
    norm_num

/-- Witness for C8 at period 3: the stored period is 3, the output after
1+3 ticks is the inverse of the output after 1 tick, the output after
1+6 ticks equals the output after 1 tick, and writing period 0 equals
writing period 1. -/
theorem claim_C8_tone_square_wave_witness :
    ((ayumi_set_tone ayBase 0 3).channels 0).tone_period = 3 ∧
    ((toneIter chPeriod3 (1 + 3)).tone = (toneIter chPeriod3 1).tone ^^^ 1 ∧
      (toneIter chPeriod3 (1 + 2 * 3)).tone = (toneIter chPeriod3 1).tone) ∧
    ayumi_set_tone ayBase 0 0 = ayumi_set_tone ayBase 0 1 :=
  ⟨(claim_C8_tone_square_wave 3 (by decide) (by decide)).1 ayBase 0,
   (claim_C8_tone_square_wave 3 (by decide) (by decide)).2.1 chPeriod3 rfl rfl 1,
   (claim_C8_tone_square_wave 3 (by decide) (by decide)).2.2 ayBase 0⟩

theorem DC_pos : 0 < DC_FILTER_SIZE := by norm_num [DC_FILTER_SIZE]

theorem dc_filter_out (dc : DcFilter) (i : Nat) (x : ℚ) :
    (dc_filter dc i x).2 = x - (dc_filter dc i x).1.sum / (DC_FILTER_SIZE : ℚ) := rfl

theorem dc_filter_inv (dc : DcFilter) (i : Nat) (x : ℚ) (hi : i < DC_FILTER_SIZE)
    (h : dcInv dc) : dcInv (dc_filter dc i x).1 := by
  unfold dcInv at *
  unfold dc_filter
  dsimp only
  rw [Finset.sum_update_of_mem (Finset.mem_range.2 hi), ← Finset.erase_eq]
  have h2 := Finset.add_sum_erase (Finset.range DC_FILTER_SIZE) dc.delay
    (Finset.mem_range.2 hi)
  linarith

theorem dcRun_inv (dc : DcFilter) (i0 : Nat) (v : ℚ) (h : dcInv dc) :
    ∀ k : Nat, dcInv (dcRun dc i0 v k).1 := by
  intro k
  induction k with
  | zero => exact h
  | succ k ih =>
    exact dc_filter_inv _ _ _ (Nat.mod_lt _ DC_pos) ih

theorem dcRun_delay_hit (dc : DcFilter) (i0 : Nat) (v : ℚ) :
    ∀ k : Nat, ∀ m : Nat, m < k →
      (dcRun dc i0 v k).1.delay ((i0 + m) % DC_FILTER_SIZE) = v := by
  intro k
  induction k with
  | zero => intro m hm; omega
  | succ k ih =>
    intro m hm
    show (dc_filter (dcRun dc i0 v k).1 ((i0 + k) % DC_FILTER_SIZE) v).1.delay _ = v
    unfold dc_filter
    dsimp only
    rw [Function.update_apply]
    split_ifs with he
    · rfl
    · have hmk : m ≠ k := fun hmk => he (by rw [hmk])
      exact ih m (by omega)

theorem dcRun_delay_all (dc : DcFilter) (i0 : Nat) (v : ℚ) (hi0 : i0 < DC_FILTER_SIZE)
    (k : Nat) (hk : DC_FILTER_SIZE ≤ k) :
    ∀ j : Nat, j < DC_FILTER_SIZE → (dcRun dc i0 v k).1.delay j = v := by
  intro j hj
  have hmod : (i0 + (DC_FILTER_SIZE + j - i0) % DC_FILTER_SIZE) % DC_FILTER_SIZE = j := by
    unfold DC_FILTER_SIZE at *
    omega
  have hm : (DC_FILTER_SIZE + j - i0) % DC_FILTER_SIZE < k :=
    lt_of_lt_of_le (Nat.mod_lt _ DC_pos) hk
  rw [← hmod]
  exact dcRun_delay_hit dc i0 v k _ hm

/-- C9.  The DC filter maintains its running sum as the exact sum of the
1024-entry delay line (the incremental O(1) update), and feeding any
constant `v` for at least `DC_FILTER_SIZE` consecutive samples, with the
delay index cycling as in `ayumi_remove_dc`, makes the filtered output
exactly 0 (in the exact-arithmetic model) from the 1024th sample on. -/
theorem claim_C9_dc_filter_constant :
    (∀ (dc : DcFilter) (i : Nat) (x : ℚ), i < DC_FILTER_SIZE → dcInv dc →
      dcInv (dc_filter dc i x).1) ∧
    (∀ (dc : DcFilter) (i0 : Nat) (v : ℚ) (k : Nat), dcInv dc →
      i0 < DC_FILTER_SIZE → DC_FILTER_SIZE ≤ k → (dcRun dc i0 v k).2 = 0) := by
  refine ⟨fun dc i x hi h => dc_filter_inv dc i x hi h, ?_⟩
  intro dc i0 v k hinv hi0 hk
  obtain ⟨n, rfl⟩ : ∃ n, k = n + 1 := ⟨k - 1, by omega⟩
  show (dc_filter (dcRun dc i0 v n).1 ((i0 + n) % DC_FILTER_SIZE) v).2 = 0
  rw [dc_filter_out]
  have hsum : (dc_filter (dcRun dc i0 v n).1 ((i0 + n) % DC_FILTER_SIZE) v).1.sum =
      (DC_FILTER_SIZE : ℚ) * v := by
    have h1 : dcInv (dcRun dc i0 v (n + 1)).1 := dcRun_inv dc i0 v hinv (n + 1)
    have h2 : ∀ j : Nat, j < DC_FILTER_SIZE → (dcRun dc i0 v (n + 1)).1.delay j = v :=
      dcRun_delay_all dc i0 v hi0 (n + 1) hk
    unfold dcInv at h1
    rw [show (dc_filter (dcRun dc i0 v n).1 ((i0 + n) % DC_FILTER_SIZE) v).1 =
      (dcRun dc i0 v (n + 1)).1 from rfl]
    rw [h1]
    rw [Finset.sum_congr rfl fun j hj => h2 j (Finset.mem_range.1 hj)]
    rw [Finset.sum_const, Finset.card_range, nsmul_eq_mul]
  rw [hsum, mul_div_cancel_left₀ v (by norm_num [DC_FILTER_SIZE] : (DC_FILTER_SIZE : ℚ) ≠ 0),
    sub_self]

/-- Witness for C9: the zero-initialised filter satisfies the sum
invariant, and 1024 consecutive feeds of the constant 1 from index 0
produce output exactly 0 on the 1024th feed. -/
theorem claim_C9_dc_filter_constant_witness :
    dcInv (dc_filter dcZero 0 1).1 ∧ (dcRun dcZero 0 1 1024).2 = 0 :=
  ⟨claim_C9_dc_filter_constant.1 dcZero 0 1 (by norm_num [DC_FILTER_SIZE])
      (by simp [dcInv, dcZero]),
   claim_C9_dc_filter_constant.2 dcZero 0 1 1024 (by simp [dcInv, dcZero])
      (by norm_num [DC_FILTER_SIZE]) (by norm_num [DC_FILTER_SIZE])⟩

/-- C10.  The register write path stores period values without the
zero-to-one normalization: writing the tone fine/coarse pair 0/0
through registers 0 and 1 leaves `tone_period == 0`; writing 0 to the
noise register 6 leaves `noise_period == 0`; writing the envelope pair
0/0 through registers 11 and 12 leaves `envelope_period == 0`.  The
coercion of 0 to 1 exists only in the `ayumi_set_tone`,
`ayumi_set_noise` and `ayumi_set_envelope` entry points (last three
conjuncts), which `psg_out` never invokes. -/
theorem claim_C10_register_zero_period (ay : Ayumi) :
    ((psg_out (psg_out ay 0 0) 1 0).channels 0).tone_period = 0 ∧
    ((psg_out (psg_out ay 2 0) 3 0).channels 1).tone_period = 0 ∧
    ((psg_out (psg_out ay 4 0) 5 0).channels 2).tone_period = 0 ∧
    (psg_out ay 6 0).noise_period = 0 ∧
    (psg_out (psg_out ay 11 0) 12 0).envelope_period = 0 ∧
    (∀ i : Fin 3, ((ayumi_set_tone ay i 0).channels i).tone_period = 1) ∧
    (ayumi_set_noise ay 0).noise_period = 1 ∧
    (ayumi_set_envelope ay 0).envelope_period = 1 := by
  refine ⟨?_, ?_, ?_, ?_, ?_, ?_, ?_, ?_⟩
  · simp [psg_out, updateChannel, Function.update_same, Nat.mul_mod_right]
  · simp [psg_out, updateChannel, Function.update_same, Nat.mul_mod_right]
  · simp [psg_out, updateChannel, Function.update_same, Nat.mul_mod_right]
  · simp [psg_out]
  · simp [psg_out, Nat.mul_mod_right]
  · intro i
    simp [ayumi_set_tone, Function.update_same]
  · simp [ayumi_set_noise]
  · simp [ayumi_set_envelope]

end PSG

end Z80Audio
